import Mathlib

/-!
Verification of `scripts/gradle-patch-properties.py`.

The script patches the `distributionUrl=` line of one or more Gradle
properties files, using the external command `mx urlrewrite` to compute the
replacement URL.  This file gives a shallow embedding of the script:

* a properties file is its list of lines as returned by Python `readlines`
  (each line keeps its trailing newline character);
* the file system is a partial map from paths to file contents, where an
  unmapped path stands for a file whose `open(..., "r")` raises `IOError`;
* the environment carries `os.name`, the `shutil.which` lookup, the
  behaviour of the `mx urlrewrite` subprocess (`none` models a
  `CalledProcessError`), and the behaviour of the write-back
  (`open(path, "w")` followed by `writelines`, which may fail when opening
  or part-way through writing — opening with mode `w` truncates the file);
* `print` calls are accumulated in a list of emitted messages, and
  `sys.exit` is modelled by an optional exit code cutting the per-file loop.

All definitions are computable so that concrete runs can be evaluated.
-/

set_option maxHeartbeats 1000000

namespace GradlePatch

/-- Python `str.strip()` on a list of characters: remove whitespace from both
ends (Lean `Char.isWhitespace` stands in for Python's whitespace set). -/
def stripL (cs : List Char) : List Char :=
  (cs.dropWhile Char.isWhitespace).rdropWhile Char.isWhitespace

/-- Python `str.strip()` on strings. -/
def pyStrip (s : String) : String :=
  ⟨stripL s.data⟩

/-- The key prefix scanned for, `"distributionUrl="` (script line 29). -/
def distKey : String :=
  "distributionUrl="

/-- Script line 29: `line.strip().startswith('distributionUrl=')`. -/
def isDistLine (line : String) : Bool :=
  distKey.data.isPrefixOf (stripL line.data)

/-- Script line 31, `line.split('=', 1)[1]`: everything after the first `=`
of the raw line.  Every line passing `isDistLine` contains a `=`, so the
out-of-range case of the Python indexing is unreachable; on a line without
`=` this total model returns the empty string. -/
def afterFirstEq (line : String) : String :=
  ⟨(line.data.dropWhile (fun c => c != '=')).drop 1⟩

/-- Script line 31: the old URL extracted from the matched line,
`line.split('=', 1)[1].strip()`. -/
def oldUrlOf (line : String) : String :=
  pyStrip (afterFirstEq line)

/-- Script line 35: the replacement line `f'distributionUrl={new_url}\n'`. -/
def patchedLine (u : String) : String :=
  "distributionUrl=" ++ u ++ "\n"

/-- Result of the scan loop of script lines 28-42 over the lines of one
file: no line matched, the subprocess failed (`CalledProcessError`), the
rewritten URL equals the old one (no mutation), or the first matching line
was replaced (the full new line list and the new URL are recorded). -/
inductive ScanResult where
  | notFound : ScanResult
  | toolFailed (oldUrl : String) : ScanResult
  | alreadySet (url : String) : ScanResult
  | replaced (newLines : List String) (newUrl : String) : ScanResult
deriving DecidableEq

/-- Script lines 28-42: walk the lines in order; at the first line whose
stripped text starts with `distributionUrl=`, extract the old URL, run the
rewrite tool (`rew`, returning `none` on a non-zero exit and the raw
decoded stdout otherwise), strip its output and compare; the loop `break`s
after the first matching line whatever the outcome. -/
def scan (rew : String → Option String) : List String → ScanResult
  | [] => ScanResult.notFound
  | line :: rest =>
    if isDistLine line then
      match rew (oldUrlOf line) with
      | none => ScanResult.toolFailed (oldUrlOf line)
      | some out =>
        if pyStrip out = oldUrlOf line then
          ScanResult.alreadySet (pyStrip out)
        else
          ScanResult.replaced (patchedLine (pyStrip out) :: rest) (pyStrip out)
    else
      match scan rew rest with
      | ScanResult.replaced nl u => ScanResult.replaced (line :: nl) u
      | r => r

/-- Behaviour of the write-back `open(path, 'w')` / `writelines` pair for
one path, modelled from Python file semantics: opening may fail (the file
is untouched), or — since mode `w` truncates on open — the write may fail
after `k` lines leaving a prefix of the new content, or everything
succeeds. -/
inductive WriteBehavior where
  | succeeds : WriteBehavior
  | openFails : WriteBehavior
  | failsAfter (k : Nat) : WriteBehavior
deriving DecidableEq

/-- The ambient environment of one run: `os.name`, the `shutil.which`
lookup, the `mx urlrewrite` subprocess, and the per-path write behaviour. -/
structure Env where
  osName : String
  onPath : String → Bool
  urlrewrite : String → Option String
  writeBehavior : String → WriteBehavior

/-- Script line 13: `'mx.cmd' if os.name == 'nt' else 'mx'`. -/
def mxExec (env : Env) : String :=
  if env.osName = "nt" then "mx.cmd" else "mx"

/-- The file system: a path maps to the line list `readlines` would return,
or to `none` when opening for reading raises `IOError`. -/
abbrev FS := String → Option (List String)

/-- Point update of the file system after a (possibly partial) write. -/
def fsUpdate (fs : FS) (p : String) (v : Option (List String)) : FS :=
  fun q => if q = p then v else fs q

/-- Script line 15. -/
def toolAbsentMsg (p : String) : String :=
  "mx executable not found, not rewriting distributionUrl in " ++ p

/-- Script line 22. -/
def readErrMsg (p : String) : String :=
  "Error reading file: " ++ p ++ ", not rewriting distributionUrl"

/-- Script line 40 (the interpolated exception text is elided). -/
def toolFailMsg (exe oldUrl : String) : String :=
  "Command `" ++ exe ++ " urlrewrite " ++ oldUrl ++ "` failed"

/-- Script line 38. -/
def alreadyMsg (p u : String) : String :=
  "distributionUrl in " ++ p ++ " is already set to " ++ u

/-- Script line 48. -/
def patchedMsg (p u : String) : String :=
  "Patched distributionUrl in \x27" ++ p ++ "\x27 to \x27" ++ u ++ "\x27"

/-- Script line 49. -/
def doNotCommitMsg : String :=
  "Do not commit this change"

/-- Script line 51. -/
def writeErrMsg (p : String) : String :=
  "Error writing file: " ++ p ++ ", distributionUrl not updated according to mx urlrewrites"

/-- Script lines 7-9. -/
def usageMsgs : List String :=
  [ "Usage: python gradle-patch-properties.py <path_to_gradle.properties> [<path2>, ...]",
    "Uses mx urlrewrites to patches distributionUrl in given Gradle properties file.",
    "If mx is not available or no urlrewrite rule applies, does nothing." ]

/-- Script line 54. -/
def notFoundMsg (p : String) : String :=
  "Did not find \x27distributionUrl\x27 in " ++ p

/-- One iteration of the per-file loop (script lines 12-55) on path `p`:
returns the file system afterwards, the messages printed, and `some c`
when the iteration called `sys.exit(c)` (ending the whole run), `none`
when the loop moves on to the next path. -/
def processFile (env : Env) (fs : FS) (p : String) :
    FS × List String × Option Nat :=
  if env.onPath (mxExec env) = false then
    (fs, [toolAbsentMsg p], some 0)
  else
    match fs p with
    | none => (fs, [readErrMsg p], some 1)
    | some lines =>
      match scan env.urlrewrite lines with
      | ScanResult.notFound =>
        (fs, [notFoundMsg p], some 1)
      | ScanResult.toolFailed oldUrl =>
        (fs, [toolFailMsg (mxExec env) oldUrl], some 1)
      | ScanResult.alreadySet u =>
        (fs, [alreadyMsg p u], none)
      | ScanResult.replaced nl u =>
        match env.writeBehavior p with
        | WriteBehavior.succeeds =>
          (fsUpdate fs p (some nl), [patchedMsg p u, doNotCommitMsg], none)
        | WriteBehavior.openFails =>
          (fs, [writeErrMsg p], some 1)
        | WriteBehavior.failsAfter k =>
          (fsUpdate fs p (some (nl.take k)), [writeErrMsg p], some 1)

/-- The per-file loop over the argument paths: thread the file system,
accumulate output, and stop with the exit code of the first iteration that
calls `sys.exit`; falling off the end of the loop is a normal interpreter
exit with status 0. -/
def runFiles (env : Env) : FS → List String → FS × List String × Nat
  | fs, [] => (fs, [], 0)
  | fs, p :: ps =>
    match processFile env fs p with
    | (fs1, out, some c) => (fs1, out, c)
    | (fs1, out, none) =>
      match runFiles env fs1 ps with
      | (fs2, out2, c) => (fs2, out ++ out2, c)

/-- The whole program on `sys.argv[1:]`: with no path arguments print the
usage text and exit 1 (script lines 6-10), otherwise run the per-file
loop. -/
def runMain (env : Env) (fs : FS) (args : List String) : FS × List String × Nat :=
  match args with
  | [] => (fs, usageMsgs, 1)
  | _ :: _ => runFiles env fs args

/-- Diagnostic classification of a run of the per-file loop: which of the
spec's outcome classes the first terminating event falls into.  `allOk`
means every file was processed to the end of its iteration (patched with a
successful write, or already at the target URL). -/
inductive RunDiag where
  | allOk : RunDiag
  | toolAbsentStop : RunDiag
  | readFailure : RunDiag
  | toolFailure : RunDiag
  | keyNotFound : RunDiag
  | writeFailure : RunDiag
deriving DecidableEq

/-- Classify a run of the per-file loop over `args` (mirrors `runFiles`
branch for branch, forgetting file contents and messages). -/
def diagFiles (env : Env) : FS → List String → RunDiag
  | _, [] => RunDiag.allOk
  | fs, p :: ps =>
    if env.onPath (mxExec env) = false then RunDiag.toolAbsentStop
    else
      match fs p with
      | none => RunDiag.readFailure
      | some lines =>
        match scan env.urlrewrite lines with
        | ScanResult.notFound => RunDiag.keyNotFound
        | ScanResult.toolFailed _ => RunDiag.toolFailure
        | ScanResult.alreadySet _ => diagFiles env fs ps
        | ScanResult.replaced nl _ =>
          match env.writeBehavior p with
          | WriteBehavior.succeeds => diagFiles env (fsUpdate fs p (some nl)) ps
          | _ => RunDiag.writeFailure

/-- Exit code associated to a diagnostic class. -/
def diagCode : RunDiag → Nat
  | RunDiag.allOk => 0
  | RunDiag.toolAbsentStop => 0
  | _ => 1

/-- The loop runs through the given paths without any `sys.exit`. -/
def allContinue (env : Env) : FS → List String → Bool
  | _, [] => true
  | fs, p :: ps =>
    (processFile env fs p).2.2.isNone && allContinue env (processFile env fs p).1 ps

/-- The file system after the loop has run through the given paths. -/
def fsAfter (env : Env) : FS → List String → FS
  | fs, [] => fs
  | fs, p :: ps => fsAfter env (processFile env fs p).1 ps

/-- A stable rewrite tool: it is a function of the URL (determinism), and
rewriting the stripped output of a successful rewrite succeeds and returns
that output unchanged up to stripping (idempotence). -/
def stableRew (rew : String → Option String) : Prop :=
  ∀ u v, rew u = some v → ∃ w, rew (pyStrip v) = some w ∧ pyStrip w = pyStrip v

/-! ### Concrete environments and file systems used as test instances -/

def wEnvTool : Env :=
  { osName := "posix", onPath := fun _ => false,
    urlrewrite := fun u => some u, writeBehavior := fun _ => WriteBehavior.succeeds }

def wFSempty : FS := fun _ => none

def wEnvId : Env :=
  { osName := "posix", onPath := fun _ => true,
    urlrewrite := fun u => some u, writeBehavior := fun _ => WriteBehavior.succeeds }

def wFSnokey : FS := fun q => if q = "g" then some ["alpha=1\n", "beta=2\n"] else none

def wFSsame : FS :=
  fun q => if q = "g" then some ["# header\n", "distributionUrl=u\n"] else none

def wEnvRew : Env :=
  { osName := "posix", onPath := fun _ => true,
    urlrewrite := fun u => if u = "old" then some " new " else some u,
    writeBehavior := fun _ => WriteBehavior.succeeds }

def wFSold : FS :=
  fun q => if q = "g" then some ["# h\n", "distributionUrl=old\n", "tail\n"] else none

def cexEnv : Env :=
  { osName := "posix", onPath := fun _ => true,
    urlrewrite := fun u => if u = "a" then some "b" else some u,
    writeBehavior := fun _ => WriteBehavior.failsAfter 0 }

def cexFS : FS :=
  fun q => if q = "g" then some ["distributionUrl=a\n"] else none

def wFStwo : FS :=
  fun q => if q = "a" then some ["distributionUrl=old\n"] else
    if q = "b" then some ["distributionUrl=x\n"] else none

def wEnvStable : Env :=
  { osName := "posix", onPath := fun _ => true,
    urlrewrite := fun u => if pyStrip u = "old" then some "new" else some u,
    writeBehavior := fun _ => WriteBehavior.succeeds }

def wFSstable : FS :=
  fun q => if q = "g" then some ["distributionUrl=old\n"] else none

/-! ### Basic facts about the scan loop -/

theorem scan_of_forall_not (rew : String → Option String) (lines : List String)
    (h : ∀ l ∈ lines, isDistLine l = false) :
    scan rew lines = ScanResult.notFound := by
  induction lines with
  | nil => rfl
  | cons line rest ih =>
    have hline : isDistLine line = false := h line (by simp)
    have hrest := ih (fun l hl => h l (by simp [hl]))
    simp [scan, hline, hrest]

theorem scan_append_not (rew : String → Option String) (pre rest : List String)
    (h : ∀ l ∈ pre, isDistLine l = false) :
    scan rew (pre ++ rest) =
      match scan rew rest with
      | ScanResult.replaced nl u => ScanResult.replaced (pre ++ nl) u
      | r => r := by
  induction pre with
  | nil =>
    simp only [List.nil_append]
    cases hr : scan rew rest <;> simp [hr]
  | cons line pre ih =>
    have hline : isDistLine line = false := h line (by simp)
    have hpre := ih (fun l hl => h l (by simp [hl]))
    simp only [List.cons_append, scan, hline, Bool.false_eq_true, if_false,
      List.append_eq, hpre]
    cases hr : scan rew rest <;> simp [hr]

theorem scan_cons_replaced (rew : String → Option String) (line : String)
    (rest : List String) (out : String)
    (hline : isDistLine line = true)
    (hrew : rew (oldUrlOf line) = some out)
    (hdiff : pyStrip out ≠ oldUrlOf line) :
    scan rew (line :: rest) =
      ScanResult.replaced (patchedLine (pyStrip out) :: rest) (pyStrip out) := by
  simp [scan, hline, hrew, hdiff]

theorem scan_cons_already (rew : String → Option String) (line : String)
    (rest : List String) (out : String)
    (hline : isDistLine line = true)
    (hrew : rew (oldUrlOf line) = some out)
    (hsame : pyStrip out = oldUrlOf line) :
    scan rew (line :: rest) = ScanResult.alreadySet (oldUrlOf line) := by
  simp [scan, hline, hrew, hsame]

theorem scan_cons_toolFailed (rew : String → Option String) (line : String)
    (rest : List String)
    (hline : isDistLine line = true)
    (hrew : rew (oldUrlOf line) = none) :
    scan rew (line :: rest) = ScanResult.toolFailed (oldUrlOf line) := by
  simp [scan, hline, hrew]

/-! ### Claim theorems -/

/-- C6: if the platform-appropriate rewrite-tool executable (`mx.cmd` when
`os.name` is `nt`, `mx` otherwise) is not on the search path, the run
prints one informational message naming the first file and exits 0
immediately, leaving the whole file system untouched and never looking at
the remaining paths. -/
theorem tool_absent_noop (env : Env) (fs : FS) (p : String) (ps : List String)
    (htool : env.onPath (if env.osName = "nt" then "mx.cmd" else "mx") = false) :
    runMain env fs (p :: ps) = (fs, [toolAbsentMsg p], 0) := by
  have h : env.onPath (mxExec env) = false := htool
  simp [runMain, runFiles, processFile, h]

/-- Concrete instance of `tool_absent_noop`. -/
theorem tool_absent_noop_witness :
    wEnvTool.onPath (if wEnvTool.osName = "nt" then "mx.cmd" else "mx") = false ∧
      runMain wEnvTool wFSempty ("a" :: ["b"]) = (wFSempty, [toolAbsentMsg "a"], 0) :=
  ⟨by decide, tool_absent_noop wEnvTool wFSempty "a" ["b"] (by decide)⟩

/-- C4: on a readable file none of whose lines has stripped text starting
with `distributionUrl=`, a run on that file prints the not-found message,
exits 1, and leaves the file system (hence the file) byte-identical. -/
theorem missing_key_exit_one (env : Env) (fs : FS) (p : String) (lines : List String)
    (htool : env.onPath (mxExec env) = true)
    (hread : fs p = some lines)
    (hnone : ∀ l ∈ lines, isDistLine l = false) :
    runMain env fs [p] = (fs, [notFoundMsg p], 1) := by
  simp [runMain, runFiles, processFile, htool, hread, scan_of_forall_not env.urlrewrite lines hnone]

/-- Concrete instance of `missing_key_exit_one`. -/
theorem missing_key_exit_one_witness :
    wEnvId.onPath (mxExec wEnvId) = true ∧
      wFSnokey "g" = some ["alpha=1\n", "beta=2\n"] ∧
      (∀ l ∈ ["alpha=1\n", "beta=2\n"], isDistLine l = false) ∧
      runMain wEnvId wFSnokey ["g"] = (wFSnokey, [notFoundMsg "g"], 1) :=
  ⟨by decide, by decide, by decide,
    missing_key_exit_one wEnvId wFSnokey "g" ["alpha=1\n", "beta=2\n"]
      (by decide) (by decide) (by decide)⟩

theorem runMain_already_set (env : Env) (fs : FS) (p : String)
    (pre : List String) (line : String) (post : List String) (out : String)
    (htool : env.onPath (mxExec env) = true)
    (hread : fs p = some (pre ++ line :: post))
    (hpre : ∀ l ∈ pre, isDistLine l = false)
    (hline : isDistLine line = true)
    (hrew : env.urlrewrite (oldUrlOf line) = some out)
    (hsame : pyStrip out = oldUrlOf line) :
    runMain env fs [p] = (fs, [alreadyMsg p (oldUrlOf line)], 0) := by
  have hscan : scan env.urlrewrite (pre ++ line :: post) =
      ScanResult.alreadySet (oldUrlOf line) := by
    rw [scan_append_not env.urlrewrite pre (line :: post) hpre,
      scan_cons_already env.urlrewrite line post out hline hrew hsame]
  simp [runMain, runFiles, processFile, htool, hread, hscan]

/-- C5: when the rewrite tool's stripped output equals the extracted old
URL, a run on that file emits the informational already-set message,
leaves the file system untouched, and exits 0. -/
theorem already_set_noop (env : Env) (fs : FS) (p : String)
    (pre : List String) (line : String) (post : List String) (out : String)
    (htool : env.onPath (mxExec env) = true)
    (hread : fs p = some (pre ++ line :: post))
    (hpre : ∀ l ∈ pre, isDistLine l = false)
    (hline : isDistLine line = true)
    (hrew : env.urlrewrite (oldUrlOf line) = some out)
    (hsame : pyStrip out = oldUrlOf line) :
    runMain env fs [p] = (fs, [alreadyMsg p (oldUrlOf line)], 0) :=
  runMain_already_set env fs p pre line post out htool hread hpre hline hrew hsame

/-- Concrete instance of `already_set_noop`. -/
theorem already_set_noop_witness :
    wEnvId.onPath (mxExec wEnvId) = true ∧
      wFSsame "g" = some (["# header\n"] ++ "distributionUrl=u\n" :: []) ∧
      (∀ l ∈ ["# header\n"], isDistLine l = false) ∧
      isDistLine "distributionUrl=u\n" = true ∧
      wEnvId.urlrewrite (oldUrlOf "distributionUrl=u\n") = some "u" ∧
      pyStrip "u" = oldUrlOf "distributionUrl=u\n" ∧
      runMain wEnvId wFSsame ["g"] =
        (wFSsame, [alreadyMsg "g" (oldUrlOf "distributionUrl=u\n")], 0) :=
  ⟨by decide, by decide, by decide, by decide, by decide, by decide,
    already_set_noop wEnvId wFSsame "g" ["# header\n"] "distributionUrl=u\n" [] "u"
      (by decide) (by decide) (by decide) (by decide) (by decide) (by decide)⟩

/-- C1: when the file has a line whose stripped text starts with
`distributionUrl=`, no earlier line matches, the rewrite tool succeeds and
its stripped output differs from the old URL, and the write-back succeeds,
then the resulting file is the original with exactly the first matching
line replaced by `distributionUrl=<newURL>` plus a newline: same number of
lines, the line at the first match index is the new line, every other line
is byte-identical, lines after the first match (even further matches) are
never touched, and no other file changes. -/
theorem rewrite_changes_exactly_one_line (env : Env) (fs : FS) (p : String)
    (pre : List String) (line : String) (post : List String) (out : String)
    (htool : env.onPath (mxExec env) = true)
    (hread : fs p = some (pre ++ line :: post))
    (hpre : ∀ l ∈ pre, isDistLine l = false)
    (hline : isDistLine line = true)
    (hrew : env.urlrewrite (oldUrlOf line) = some out)
    (hdiff : pyStrip out ≠ oldUrlOf line)
    (hwrite : env.writeBehavior p = WriteBehavior.succeeds) :
    (runMain env fs [p]).1 p = some (pre ++ patchedLine (pyStrip out) :: post) ∧
      (pre ++ patchedLine (pyStrip out) :: post).length = (pre ++ line :: post).length ∧
      (pre ++ patchedLine (pyStrip out) :: post)[pre.length]? =
        some (patchedLine (pyStrip out)) ∧
      (∀ j, j ≠ pre.length →
        (pre ++ patchedLine (pyStrip out) :: post)[j]? = (pre ++ line :: post)[j]?) ∧
      (∀ q, q ≠ p → (runMain env fs [p]).1 q = fs q) ∧
      (runMain env fs [p]).2.2 = 0 := by
  have hscan : scan env.urlrewrite (pre ++ line :: post) =
      ScanResult.replaced (pre ++ patchedLine (pyStrip out) :: post) (pyStrip out) := by
    rw [scan_append_not env.urlrewrite pre (line :: post) hpre,
      scan_cons_replaced env.urlrewrite line post out hline hrew hdiff]
  have hrun : runMain env fs [p] =
      (fsUpdate fs p (some (pre ++ patchedLine (pyStrip out) :: post)),
        [patchedMsg p (pyStrip out), doNotCommitMsg], 0) := by
    simp [runMain, runFiles, processFile, htool, hread, hscan, hwrite]
  refine ⟨?_, ?_, ?_, ?_, ?_, ?_⟩
  · rw [hrun]; simp [fsUpdate]
  · simp
  · rw [List.getElem?_append_right (le_refl pre.length)]
    simp
  · intro j hj
    rw [List.getElem?_append, List.getElem?_append]
    by_cases hlt : j < pre.length
    · simp [hlt]
    · simp only [hlt, if_false]
      have h1 : pre.length < j := Nat.lt_of_le_of_ne (Nat.le_of_not_lt hlt) (Ne.symm hj)
      obtain ⟨k, hk⟩ : ∃ k, j - pre.length = k + 1 := ⟨j - pre.length - 1, by omega⟩
      rw [hk]
      simp
  · intro q hq
    rw [hrun]
    simp [fsUpdate, hq]
  · rw [hrun]

/-- Concrete instance of `rewrite_changes_exactly_one_line`. -/
theorem rewrite_changes_exactly_one_line_witness :
    wEnvRew.onPath (mxExec wEnvRew) = true ∧
      wFSold "g" = some (["# h\n"] ++ "distributionUrl=old\n" :: ["tail\n"]) ∧
      (∀ l ∈ ["# h\n"], isDistLine l = false) ∧
      isDistLine "distributionUrl=old\n" = true ∧
      wEnvRew.urlrewrite (oldUrlOf "distributionUrl=old\n") = some " new " ∧
      pyStrip " new " ≠ oldUrlOf "distributionUrl=old\n" ∧
      wEnvRew.writeBehavior "g" = WriteBehavior.succeeds ∧
      ((runMain wEnvRew wFSold ["g"]).1 "g" =
          some (["# h\n"] ++ patchedLine (pyStrip " new ") :: ["tail\n"]) ∧
        (["# h\n"] ++ patchedLine (pyStrip " new ") :: ["tail\n"]).length =
          (["# h\n"] ++ "distributionUrl=old\n" :: ["tail\n"]).length ∧
        (["# h\n"] ++ patchedLine (pyStrip " new ") :: ["tail\n"])[(["# h\n"] : List String).length]? =
          some (patchedLine (pyStrip " new ")) ∧
        (∀ j, j ≠ (["# h\n"] : List String).length →
          (["# h\n"] ++ patchedLine (pyStrip " new ") :: ["tail\n"])[j]? =
            (["# h\n"] ++ "distributionUrl=old\n" :: ["tail\n"])[j]?) ∧
        (∀ q, q ≠ "g" → (runMain wEnvRew wFSold ["g"]).1 q = wFSold q) ∧
        (runMain wEnvRew wFSold ["g"]).2.2 = 0) :=
  ⟨by decide, by decide, by decide, by decide, by decide, by decide, by decide,
    rewrite_changes_exactly_one_line wEnvRew wFSold "g" ["# h\n"]
      "distributionUrl=old\n" ["tail\n"] " new "
      (by decide) (by decide) (by decide) (by decide) (by decide) (by decide) (by decide)⟩

/-- C2 counterexample: with the rewrite changing `a` to `b` and the write
failing right after `open(path, 'w')` truncated the file (zero lines
written), the run exits 1 and the file on disk is empty — not its original
content, so a failing write-back is not atomic. -/
theorem write_failure_not_atomic_cex :
    (runMain cexEnv cexFS ["g"]).2.2 = 1 ∧
      cexFS "g" = some ["distributionUrl=a\n"] ∧
      (runMain cexEnv cexFS ["g"]).1 "g" = some [] ∧
      (runMain cexEnv cexFS ["g"]).1 "g" ≠ cexFS "g" := by
  refine ⟨by decide, by decide, by decide, by decide⟩

/-- C2 (amended): processing reads the file fully into memory; on
write-back, if opening the file for writing fails the file is unchanged
and the run exits 1, if the write fails after a successful open the file
is left holding a prefix of the new content (mode `w` truncated it) and
the run exits 1, and on success it is rewritten fully in one step. -/
theorem write_failure_effect (env : Env) (fs : FS) (p : String)
    (lines nl : List String) (u : String)
    (htool : env.onPath (mxExec env) = true)
    (hread : fs p = some lines)
    (hscan : scan env.urlrewrite lines = ScanResult.replaced nl u) :
    (env.writeBehavior p = WriteBehavior.openFails →
      processFile env fs p = (fs, [writeErrMsg p], some 1)) ∧
      (∀ k, env.writeBehavior p = WriteBehavior.failsAfter k →
        processFile env fs p =
          (fsUpdate fs p (some (nl.take k)), [writeErrMsg p], some 1)) ∧
      (env.writeBehavior p = WriteBehavior.succeeds →
        processFile env fs p =
          (fsUpdate fs p (some nl), [patchedMsg p u, doNotCommitMsg], none)) := by
  refine ⟨fun hw => ?_, fun k hw => ?_, fun hw => ?_⟩ <;>
    simp [processFile, htool, hread, hscan, hw]

/-- Concrete instance of `write_failure_effect`. -/
theorem write_failure_effect_witness :
    cexEnv.onPath (mxExec cexEnv) = true ∧
      cexFS "g" = some ["distributionUrl=a\n"] ∧
      scan cexEnv.urlrewrite ["distributionUrl=a\n"] =
        ScanResult.replaced ["distributionUrl=b\n"] "b" ∧
      ((cexEnv.writeBehavior "g" = WriteBehavior.openFails →
        processFile cexEnv cexFS "g" = (cexFS, [writeErrMsg "g"], some 1)) ∧
        (∀ k, cexEnv.writeBehavior "g" = WriteBehavior.failsAfter k →
          processFile cexEnv cexFS "g" =
            (fsUpdate cexFS "g" (some (["distributionUrl=b\n"].take k)),
              [writeErrMsg "g"], some 1)) ∧
        (cexEnv.writeBehavior "g" = WriteBehavior.succeeds →
          processFile cexEnv cexFS "g" =
            (fsUpdate cexFS "g" (some ["distributionUrl=b\n"]),
              [patchedMsg "g" "b", doNotCommitMsg], none))) :=
  ⟨by decide, by decide, by decide,
    write_failure_effect cexEnv cexFS "g" ["distributionUrl=a\n"]
      ["distributionUrl=b\n"] "b" (by decide) (by decide) (by decide)⟩

/-! ### Exit-code characterization -/

theorem runFiles_code_eq (env : Env) (ps : List String) : ∀ fs : FS,
    (runFiles env fs ps).2.2 = diagCode (diagFiles env fs ps) := by
  induction ps with
  | nil => intro fs; rfl
  | cons p ps ih =>
    intro fs
    by_cases htool : env.onPath (mxExec env) = false
    · simp [runFiles, processFile, diagFiles, htool, diagCode]
    · have htool1 : env.onPath (mxExec env) = true := by
        cases h : env.onPath (mxExec env) <;> simp_all
      rcases hread : fs p with _ | lines
      · simp [runFiles, processFile, diagFiles, htool1, hread, diagCode]
      · rcases hscan : scan env.urlrewrite lines with _ | oldUrl | u | ⟨nl, u⟩
        · simp [runFiles, processFile, diagFiles, htool1, hread, hscan, diagCode]
        · simp [runFiles, processFile, diagFiles, htool1, hread, hscan, diagCode]
        · have hrec := ih fs
          simp only [runFiles, processFile, htool1, hread, hscan, Bool.true_eq_false,
            if_false]
          rcases hr : runFiles env fs ps with ⟨fs2, out2, c⟩
          rw [hr] at hrec
          simp only [diagFiles, htool1, hread, hscan, Bool.true_eq_false, if_false]
          exact hrec
        · rcases hw : env.writeBehavior p with _ | _ | k
          · have hrec := ih (fsUpdate fs p (some nl))
            simp only [runFiles, processFile, htool1, hread, hscan, hw,
              Bool.true_eq_false, if_false]
            rcases hr : runFiles env (fsUpdate fs p (some nl)) ps with ⟨fs2, out2, c⟩
            rw [hr] at hrec
            simp only [diagFiles, htool1, hread, hscan, hw, Bool.true_eq_false, if_false]
            exact hrec
          · simp [runFiles, processFile, diagFiles, htool1, hread, hscan, hw, diagCode]
          · simp [runFiles, processFile, diagFiles, htool1, hread, hscan, hw, diagCode]

/-- C3: the exit status is always 0 or 1; it is 0 exactly when there was at
least one path argument and the run either processed every file to the end
of its iteration (patched with a successful write, or already at the
target URL) or stopped because the rewrite tool was absent; it is 1
exactly when the arguments were missing or the first terminating event was
an unreadable file, a rewrite-tool failure, a failed write-back, or a file
with no `distributionUrl=` line. -/
theorem exit_code_characterization (env : Env) (fs : FS) (args : List String) :
    ((runMain env fs args).2.2 = 0 ∨ (runMain env fs args).2.2 = 1) ∧
      ((runMain env fs args).2.2 = 0 ↔
        (args ≠ [] ∧ (diagFiles env fs args = RunDiag.allOk ∨
          diagFiles env fs args = RunDiag.toolAbsentStop))) ∧
      ((runMain env fs args).2.2 = 1 ↔
        (args = [] ∨ diagFiles env fs args = RunDiag.readFailure ∨
          diagFiles env fs args = RunDiag.toolFailure ∨
          diagFiles env fs args = RunDiag.writeFailure ∨
          diagFiles env fs args = RunDiag.keyNotFound)) := by
  cases args with
  | nil => simp [runMain, diagFiles]
  | cons p ps =>
    have hc : (runMain env fs (p :: ps)).2.2 = diagCode (diagFiles env fs (p :: ps)) :=
      runFiles_code_eq env (p :: ps) fs
    rw [hc]
    cases hd : diagFiles env fs (p :: ps) <;> simp [diagCode]

/-! ### Loop structure: fail-fast and frame properties -/

theorem processFile_frame (env : Env) (fs : FS) (p q : String) (hq : q ≠ p) :
    (processFile env fs p).1 q = fs q := by
  unfold processFile
  repeat' split
  all_goals first
  | rfl
  | simp [fsUpdate, hq]

theorem runFiles_frame (env : Env) (l : List String) : ∀ fs : FS, ∀ q : String,
    q ∉ l → (runFiles env fs l).1 q = fs q := by
  induction l with
  | nil => intro fs q _; rfl
  | cons p ps ih =>
    intro fs q h
    have hqp : q ≠ p := by
      intro he; exact h (by simp [he])
    have hqps : q ∉ ps := fun hm => h (by simp [hm])
    have hstep : (processFile env fs p).1 q = fs q := processFile_frame env fs p q hqp
    rcases hp : processFile env fs p with ⟨fs1, out, oc⟩
    rw [hp] at hstep
    cases oc with
    | none =>
      have hrest := ih fs1 q hqps
      rcases hr : runFiles env fs1 ps with ⟨fs2, out2, c⟩
      rw [hr] at hrest
      simp only [runFiles, hp, hr]
      exact hrest.trans hstep
    | some c =>
      simp only [runFiles, hp]
      exact hstep

theorem runFiles_append_of_allContinue (env : Env) (l1 : List String) :
    ∀ fs : FS, allContinue env fs l1 = true → ∀ l2 : List String,
      runFiles env fs (l1 ++ l2) =
        ((runFiles env (fsAfter env fs l1) l2).1,
          (runFiles env fs l1).2.1 ++ (runFiles env (fsAfter env fs l1) l2).2.1,
          (runFiles env (fsAfter env fs l1) l2).2.2) := by
  induction l1 with
  | nil =>
    intro fs _ l2
    rcases hr : runFiles env fs l2 with ⟨fs2, out2, c⟩
    simp [runFiles, fsAfter, hr]
  | cons p ps ih =>
    intro fs hok l2
    rcases hp : processFile env fs p with ⟨fs1, out, oc⟩
    have hok1 : oc.isNone && allContinue env fs1 ps := by
      have := hok
      unfold allContinue at this
      rw [hp] at this
      exact this
    have hoc : oc = none := by
      cases oc
      · rfl
      · simp at hok1
    subst hoc
    have hcont : allContinue env fs1 ps = true := by simpa using hok1
    have hrec := ih fs1 hcont l2
    have hfsa : fsAfter env fs (p :: ps) = fsAfter env fs1 ps := by
      simp only [fsAfter]
      rw [hp]
    rcases hr2 : runFiles env (fsAfter env fs1 ps) l2 with ⟨fs2, out2, c2⟩
    rcases hr1 : runFiles env fs1 (ps ++ l2) with ⟨fs3, out3, c3⟩
    rcases hr0 : runFiles env fs1 ps with ⟨fs4, out4, c4⟩
    rw [hr2, hr1, hr0] at hrec
    simp only [List.cons_append, runFiles, hp, List.append_eq, hr1, hr0, hfsa, hr2]
    simp only [Prod.mk.injEq] at hrec ⊢
    exact ⟨hrec.1, by rw [List.append_assoc, hrec.2.1], hrec.2.2⟩

/-- C8: files are handled strictly in argument order; if every file in the
prefix `ps` runs to the end of its loop iteration and the next path `p`
hits a fatal error (exit code 1), the whole run exits 1 no matter what
later paths `qs` are given — the run is literally the same as if `qs` were
absent — the final file system is the one left by the failing iteration,
and every file other than `p` keeps the updates written while processing
`ps`. -/
theorem fail_fast_keeps_earlier_updates (env : Env) (fs : FS)
    (ps : List String) (p : String) (qs : List String)
    (hok : allContinue env fs ps = true)
    (hfail : (processFile env (fsAfter env fs ps) p).2.2 = some 1) :
    runMain env fs (ps ++ p :: qs) = runMain env fs (ps ++ [p]) ∧
      (runMain env fs (ps ++ p :: qs)).2.2 = 1 ∧
      (runMain env fs (ps ++ p :: qs)).1 = (processFile env (fsAfter env fs ps) p).1 ∧
      (∀ q, q ≠ p → (runMain env fs (ps ++ p :: qs)).1 q = fsAfter env fs ps q) := by
  have hmain1 : runMain env fs (ps ++ p :: qs) = runFiles env fs (ps ++ p :: qs) := by
    cases ps <;> rfl
  have hmain2 : runMain env fs (ps ++ [p]) = runFiles env fs (ps ++ [p]) := by
    cases ps <;> rfl
  rcases hp : processFile env (fsAfter env fs ps) p with ⟨fs1, out, oc⟩
  have hoc : oc = some 1 := by rw [hp] at hfail; exact hfail
  subst hoc
  have hstop : ∀ l2 : List String, runFiles env (fsAfter env fs ps) (p :: l2) =
      (fs1, out, 1) := by
    intro l2
    simp only [runFiles, hp]
  have h1 := runFiles_append_of_allContinue env ps fs hok (p :: qs)
  have h2 := runFiles_append_of_allContinue env ps fs hok [p]
  rw [hstop qs] at h1
  rw [hstop []] at h2
  refine ⟨?_, ?_, ?_, ?_⟩
  · rw [hmain1, hmain2, h1, h2]
  · rw [hmain1, h1]
  · simp only [hmain1, h1, hp]
  · intro q hq
    rw [hmain1, h1]
    have := processFile_frame env (fsAfter env fs ps) p q hq
    rw [hp] at this
    exact this

/-- C9: once the loop iterations over the prefix `l1` have completed
(including any write-backs), nothing that happens while processing the
remaining paths `l2` — tool absence, read failure, tool failure, write
failure, missing key, or further patches to other files — modifies a file
`p` that is not among the remaining paths: its content after the whole run
is exactly its content after the prefix. -/
theorem earlier_file_untouched_later (env : Env) (fs : FS)
    (l1 l2 : List String) (p : String)
    (hok : allContinue env fs l1 = true)
    (hnot : p ∉ l2) :
    (runFiles env fs (l1 ++ l2)).1 p = fsAfter env fs l1 p := by
  rw [runFiles_append_of_allContinue env l1 fs hok l2]
  exact runFiles_frame env l2 (fsAfter env fs l1) p hnot

/-- Concrete instance of `fail_fast_keeps_earlier_updates`: the first path
patches fine, the second is unreadable, a third path is never attempted. -/
theorem fail_fast_keeps_earlier_updates_witness :
    allContinue wEnvRew wFStwo ["a"] = true ∧
      (processFile wEnvRew (fsAfter wEnvRew wFStwo ["a"]) "missing").2.2 = some 1 ∧
      (runMain wEnvRew wFStwo (["a"] ++ "missing" :: ["c"]) =
          runMain wEnvRew wFStwo (["a"] ++ ["missing"]) ∧
        (runMain wEnvRew wFStwo (["a"] ++ "missing" :: ["c"])).2.2 = 1 ∧
        (runMain wEnvRew wFStwo (["a"] ++ "missing" :: ["c"])).1 =
          (processFile wEnvRew (fsAfter wEnvRew wFStwo ["a"]) "missing").1 ∧
        (∀ q, q ≠ "missing" →
          (runMain wEnvRew wFStwo (["a"] ++ "missing" :: ["c"])).1 q =
            fsAfter wEnvRew wFStwo ["a"] q)) :=
  ⟨by decide, by decide,
    fail_fast_keeps_earlier_updates wEnvRew wFStwo ["a"] "missing" ["c"]
      (by decide) (by decide)⟩

/-- Concrete instance of `earlier_file_untouched_later`. -/
theorem earlier_file_untouched_later_witness :
    allContinue wEnvRew wFStwo ["a"] = true ∧
      "a" ∉ (["b"] : List String) ∧
      (runFiles wEnvRew wFStwo (["a"] ++ ["b"])).1 "a" = fsAfter wEnvRew wFStwo ["a"] "a" :=
  ⟨by decide, by decide,
    earlier_file_untouched_later wEnvRew wFStwo ["a"] ["b"] "a" (by decide) (by decide)⟩

/-! ### Facts about stripping and the patched line -/

theorem stripL_head_not_ws (x : List Char) (a : Char) (t : List Char)
    (h : stripL x = a :: t) : Char.isWhitespace a = false := by
  have hpre : stripL x <+: x.dropWhile Char.isWhitespace := by
    unfold stripL
    exact List.rdropWhile_prefix _ _
  rw [h] at hpre
  obtain ⟨r, hr⟩ := hpre
  have hd : x.dropWhile Char.isWhitespace = a :: (t ++ r) := by rw [← hr]; simp
  have hne : x.dropWhile Char.isWhitespace ≠ [] := by rw [hd]; simp
  have hh := List.head_dropWhile_not Char.isWhitespace x hne
  simp only [hd, List.head_cons] at hh
  exact hh

theorem stripL_concat_ws (x : List Char) (c : Char)
    (hc : Char.isWhitespace c = true) :
    stripL (stripL x ++ [c]) = stripL x := by
  rcases hs : stripL x with _ | ⟨a, t⟩
  · simp only [List.nil_append]
    unfold stripL
    simp [List.dropWhile_cons, hc]
  · have ha : Char.isWhitespace a = false := stripL_head_not_ws x a t hs
    unfold stripL
    have h1 : ((a :: t) ++ [c]).dropWhile Char.isWhitespace = (a :: t) ++ [c] := by
      simp [List.dropWhile_cons, ha]
    rw [h1, List.rdropWhile_concat_pos _ _ _ hc, ← hs]
    unfold stripL
    exact List.rdropWhile_idempotent _ _

theorem stripL_idem (x : List Char) : stripL (stripL x) = stripL x := by
  rcases hs : stripL x with _ | ⟨a, t⟩
  · rfl
  · have ha : Char.isWhitespace a = false := stripL_head_not_ws x a t hs
    unfold stripL
    have h1 : (a :: t).dropWhile Char.isWhitespace = a :: t := by
      simp [List.dropWhile_cons, ha]
    rw [h1, ← hs]
    unfold stripL
    exact List.rdropWhile_idempotent _ _

theorem pyStrip_idem (s : String) : pyStrip (pyStrip s) = pyStrip s :=
  congrArg String.mk (stripL_idem s.data)

theorem dropWhile_append_left_id (p : Char → Bool) (k s : List Char)
    (hk : k.dropWhile p = k) (hne : k ≠ []) :
    (k ++ s).dropWhile p = k ++ s := by
  cases k with
  | nil => exact absurd rfl hne
  | cons a t =>
    have ha : p a = false := by
      by_cases hpa : p a = true
      · exfalso
        have h := hk
        rw [List.dropWhile_cons, if_pos hpa] at h
        have hlen := congrArg List.length h
        have hle : (t.dropWhile p).length ≤ t.length :=
          (List.dropWhile_suffix p).length_le
        simp at hlen
        omega
      · simpa using hpa
    simp [List.dropWhile_cons, ha]

theorem rdropWhile_append_left (p : Char → Bool) (k s : List Char)
    (hk : List.rdropWhile p k = k) :
    List.rdropWhile p (k ++ s) = k ++ List.rdropWhile p s := by
  have hkr : k.reverse.dropWhile p = k.reverse := by
    have h2 := congrArg List.reverse hk
    rw [List.rdropWhile, List.reverse_reverse] at h2
    exact h2
  unfold List.rdropWhile
  rw [List.reverse_append, List.dropWhile_append]
  by_cases he : (s.reverse.dropWhile p).isEmpty = true
  · rw [if_pos he, hkr, List.reverse_reverse]
    have hse : s.reverse.dropWhile p = [] := by
      cases hx : s.reverse.dropWhile p
      · rfl
      · rw [hx] at he; simp at he
    rw [hse]
    simp
  · rw [if_neg he, List.reverse_append, List.reverse_reverse]

theorem stripL_key_append (s : List Char) :
    stripL (distKey.data ++ s) =
      distKey.data ++ List.rdropWhile Char.isWhitespace s := by
  unfold stripL
  rw [dropWhile_append_left_id Char.isWhitespace distKey.data s (by decide) (by decide)]
  exact rdropWhile_append_left Char.isWhitespace distKey.data s (by decide)

theorem isDistLine_patchedLine (u : String) : isDistLine (patchedLine u) = true := by
  unfold isDistLine patchedLine
  have hdata : ("distributionUrl=" ++ u ++ "\n").data =
      distKey.data ++ (u.data ++ ['\n']) := by
    simp only [String.data_append, List.append_assoc]
    rfl
  rw [hdata, stripL_key_append, List.isPrefixOf_iff_prefix]
  exact List.prefix_append _ _

theorem dropWhile_ne_eq_append (a s : List Char)
    (h : ∀ c ∈ a, (c != '=') = true) :
    (a ++ '=' :: s).dropWhile (fun c => c != '=') = '=' :: s := by
  induction a with
  | nil => simp [List.dropWhile_cons]
  | cons c t ih =>
    have hc : (c != '=') = true := h c (by simp)
    simp only [List.cons_append, List.dropWhile_cons, hc, if_true]
    exact ih (fun d hd => h d (by simp [hd]))

theorem afterFirstEq_patchedLine (u : String) :
    afterFirstEq (patchedLine u) = ⟨u.data ++ ['\n']⟩ := by
  unfold afterFirstEq patchedLine
  have hdata : ("distributionUrl=" ++ u ++ "\n").data =
      "distributionUrl".data ++ '=' :: (u.data ++ ['\n']) := by
    have h1 : ("distributionUrl=").data = "distributionUrl".data ++ ['='] := by decide
    simp only [String.data_append, h1, List.append_assoc]
    rfl
  rw [hdata, dropWhile_ne_eq_append _ _ (by decide)]
  rfl

theorem oldUrlOf_patchedLine (out : String) :
    oldUrlOf (patchedLine (pyStrip out)) = pyStrip out := by
  unfold oldUrlOf
  rw [afterFirstEq_patchedLine]
  exact congrArg String.mk (stripL_concat_ws out.data '\n' (by decide))

theorem stripL_eq_decomp (l k : List Char) (h : stripL l = k) :
    ∃ a b, l = a ++ k ++ b ∧ (∀ c ∈ a, Char.isWhitespace c = true) ∧
      (∀ c ∈ b, Char.isWhitespace c = true) := by
  refine ⟨l.takeWhile Char.isWhitespace,
    ((l.dropWhile Char.isWhitespace).reverse.takeWhile Char.isWhitespace).reverse,
    ?_, ?_, ?_⟩
  · have h1 : l = l.takeWhile Char.isWhitespace ++ l.dropWhile Char.isWhitespace :=
      (List.takeWhile_append_dropWhile _ _).symm
    have h5 : ((l.dropWhile Char.isWhitespace).reverse.dropWhile
        Char.isWhitespace).reverse = k := h
    have h4 : l.dropWhile Char.isWhitespace =
        k ++ ((l.dropWhile Char.isWhitespace).reverse.takeWhile
          Char.isWhitespace).reverse := by
      have h3 : (l.dropWhile Char.isWhitespace).reverse =
          (l.dropWhile Char.isWhitespace).reverse.takeWhile Char.isWhitespace ++
            (l.dropWhile Char.isWhitespace).reverse.dropWhile Char.isWhitespace :=
        (List.takeWhile_append_dropWhile _ _).symm
      have h6 := congrArg List.reverse h3
      rw [List.reverse_reverse, List.reverse_append, h5] at h6
      exact h6
    rw [List.append_assoc, ← h4]
    exact h1
  · exact fun c hc => List.mem_takeWhile_imp hc
  · intro c hc
    rw [List.mem_reverse] at hc
    exact List.mem_takeWhile_imp hc

theorem isDistLine_of_strip_eq_key (l : String) (h : pyStrip l = distKey) :
    isDistLine l = true := by
  unfold isDistLine
  have hd : stripL l.data = distKey.data := congrArg String.data h
  rw [hd, List.isPrefixOf_iff_prefix]

theorem oldUrlOf_of_strip_eq_key (l : String) (h : pyStrip l = distKey) :
    oldUrlOf l = "" := by
  have hd : stripL l.data = distKey.data := congrArg String.data h
  obtain ⟨a, b, hl, ha, hb⟩ := stripL_eq_decomp l.data distKey.data hd
  unfold oldUrlOf afterFirstEq
  have hkey : distKey.data = "distributionUrl".data ++ ['='] := by decide
  have hl2 : l.data = (a ++ "distributionUrl".data) ++ '=' :: b := by
    rw [hl, hkey]
    simp [List.append_assoc]
  have hmem : ∀ c ∈ a ++ ("distributionUrl").data, (c != '=') = true := by
    intro c hc
    rcases List.mem_append.mp hc with h1 | h2
    · have hwc := ha c h1
      have hne : c ≠ '=' := by
        intro he
        rw [he] at hwc
        exact absurd hwc (by decide)
      simpa using hne
    · have hall : ∀ c ∈ ("distributionUrl").data, (c != '=') = true := by decide
      exact hall c h2
  rw [hl2, dropWhile_ne_eq_append _ _ hmem]
  have hsb : stripL b = [] := by
    unfold stripL
    rw [List.dropWhile_eq_nil_iff.mpr hb]
    simp [List.rdropWhile]
  show pyStrip ⟨b⟩ = ""
  unfold pyStrip
  rw [show (⟨b⟩ : String).data = b from rfl, hsb]

theorem scan_replaced_inv (rew : String → Option String) :
    ∀ lines nl u, scan rew lines = ScanResult.replaced nl u →
      ∃ pre line post out, lines = pre ++ line :: post ∧
        (∀ l ∈ pre, isDistLine l = false) ∧ isDistLine line = true ∧
        rew (oldUrlOf line) = some out ∧ pyStrip out = u ∧
        pyStrip out ≠ oldUrlOf line ∧
        nl = pre ++ patchedLine u :: post := by
  intro lines
  induction lines with
  | nil =>
    intro nl u h
    simp [scan] at h
  | cons line rest ih =>
    intro nl u h
    by_cases hline : isDistLine line = true
    · rcases hrew : rew (oldUrlOf line) with _ | out
      · rw [scan_cons_toolFailed rew line rest hline hrew] at h
        simp at h
      · by_cases hsame : pyStrip out = oldUrlOf line
        · rw [scan_cons_already rew line rest out hline hrew hsame] at h
          simp at h
        · rw [scan_cons_replaced rew line rest out hline hrew hsame] at h
          rw [ScanResult.replaced.injEq] at h
          obtain ⟨hnl, hu⟩ := h
          refine ⟨[], line, rest, out, by simp, by simp, hline, hrew, hu, hsame, ?_⟩
          rw [← hnl, hu]
          simp
    · have hlf : isDistLine line = false := by
        cases hb : isDistLine line
        · rfl
        · exact absurd hb hline
      have hs : scan rew (line :: rest) =
          match scan rew rest with
          | ScanResult.replaced nl2 u2 => ScanResult.replaced (line :: nl2) u2
          | r => r := by
        have hstep := scan_append_not rew [line] rest
          (by intro l hl; rw [List.mem_singleton.mp hl]; exact hlf)
        simpa using hstep
      rw [hs] at h
      rcases hr : scan rew rest with _ | v | v | ⟨nl2, u2⟩ <;> rw [hr] at h
      · simp at h
      · simp at h
      · simp at h
      · simp only [ScanResult.replaced.injEq] at h
        obtain ⟨hnl, hu⟩ := h
        obtain ⟨pre, l2, post, out, hlines, hpre, hl2, hrew2, hout, hne, hnl2⟩ :=
          ih nl2 u2 hr
        refine ⟨line :: pre, l2, post, out, by rw [hlines]; rfl, ?_, hl2, hrew2,
          by rw [hout, hu], by rw [hout, hu] at hne ⊢; exact hne, ?_⟩
        · intro l hl
          rcases List.mem_cons.mp hl with h1 | h2
          · rw [h1]; exact hlf
          · exact hpre l h2
        · rw [← hnl, hnl2, hu]
          rfl

/-- C7: with a stable (deterministic and idempotent) rewrite tool, a second
run of the patcher on the same file after a first run that exited 0 leaves
the file system exactly as the first run left it and exits 0 again: after a
patch, the second run's extracted old URL equals the tool's (stripped)
output, so the second run takes the no-mutation branch. -/
theorem second_run_no_mutation (env : Env) (fs : FS) (p : String)
    (fs1 : FS) (out1 : List String)
    (hstable : stableRew env.urlrewrite)
    (h1 : runMain env fs [p] = (fs1, out1, 0)) :
    ∃ out2, runMain env fs1 [p] = (fs1, out2, 0) := by
  by_cases htool : env.onPath (mxExec env) = false
  · have hrun : runMain env fs [p] = (fs, [toolAbsentMsg p], 0) := by
      simp [runMain, runFiles, processFile, htool]
    rw [hrun] at h1
    have hfs : fs = fs1 := congrArg Prod.fst h1
    subst hfs
    exact ⟨[toolAbsentMsg p], hrun⟩
  · have htool1 : env.onPath (mxExec env) = true := by
      cases hb : env.onPath (mxExec env)
      · exact absurd hb htool
      · rfl
    rcases hread : fs p with _ | lines
    · have hrun : runMain env fs [p] = (fs, [readErrMsg p], 1) := by
        simp [runMain, runFiles, processFile, htool1, hread]
      rw [hrun] at h1
      have h01 := congrArg (fun t => t.2.2) h1
      simp at h01
    · rcases hscan : scan env.urlrewrite lines with _ | v | u | ⟨nl, u⟩
      · have hrun : runMain env fs [p] = (fs, [notFoundMsg p], 1) := by
          simp [runMain, runFiles, processFile, htool1, hread, hscan]
        rw [hrun] at h1
        have h01 := congrArg (fun t => t.2.2) h1
        simp at h01
      · have hrun : runMain env fs [p] = (fs, [toolFailMsg (mxExec env) v], 1) := by
          simp [runMain, runFiles, processFile, htool1, hread, hscan]
        rw [hrun] at h1
        have h01 := congrArg (fun t => t.2.2) h1
        simp at h01
      · have hrun : runMain env fs [p] = (fs, [alreadyMsg p u], 0) := by
          simp [runMain, runFiles, processFile, htool1, hread, hscan]
        rw [hrun] at h1
        have hfs : fs = fs1 := congrArg Prod.fst h1
        subst hfs
        exact ⟨[alreadyMsg p u], hrun⟩
      · rcases hw : env.writeBehavior p with _ | _ | k
        · have hrun : runMain env fs [p] =
              (fsUpdate fs p (some nl), [patchedMsg p u, doNotCommitMsg], 0) := by
            simp [runMain, runFiles, processFile, htool1, hread, hscan, hw]
          rw [hrun] at h1
          have hfs : fsUpdate fs p (some nl) = fs1 := congrArg Prod.fst h1
          obtain ⟨pre, line, post, out, hlines, hpre, hline, hrew, hout, hne, hnl⟩ :=
            scan_replaced_inv env.urlrewrite lines nl u hscan
          obtain ⟨w, hw2, hwstrip⟩ := hstable (oldUrlOf line) out hrew
          have hu : u = pyStrip out := hout.symm
          have hold2 : oldUrlOf (patchedLine u) = u := by
            rw [hu]
            exact oldUrlOf_patchedLine out
          have hline2 : isDistLine (patchedLine u) = true := isDistLine_patchedLine u
          have hrew2 : env.urlrewrite (oldUrlOf (patchedLine u)) = some w := by
            rw [hold2, hu]
            exact hw2
          have hsame2 : pyStrip w = oldUrlOf (patchedLine u) := by
            rw [hold2, hu]
            exact hwstrip
          have hread2 : fs1 p = some (pre ++ patchedLine u :: post) := by
            rw [← hfs, hnl]
            simp [fsUpdate]
          exact ⟨[alreadyMsg p (oldUrlOf (patchedLine u))],
            runMain_already_set env fs1 p pre (patchedLine u) post w
              htool1 hread2 hpre hline2 hrew2 hsame2⟩
        · have hrun : runMain env fs [p] = (fs, [writeErrMsg p], 1) := by
            simp [runMain, runFiles, processFile, htool1, hread, hscan, hw]
          rw [hrun] at h1
          have h01 := congrArg (fun t => t.2.2) h1
          simp at h01
        · have hrun : runMain env fs [p] =
              (fsUpdate fs p (some (nl.take k)), [writeErrMsg p], 1) := by
            simp [runMain, runFiles, processFile, htool1, hread, hscan, hw]
          rw [hrun] at h1
          have h01 := congrArg (fun t => t.2.2) h1
          simp at h01

theorem wEnvStable_stable : stableRew wEnvStable.urlrewrite := by
  intro u v h
  have h2 : (if pyStrip u = "old" then some "new" else some u) = some v := h
  by_cases hc : pyStrip u = "old"
  · rw [if_pos hc] at h2
    have hv : v = "new" := (Option.some.inj h2).symm
    subst hv
    exact ⟨pyStrip "new", by decide, by decide⟩
  · rw [if_neg hc] at h2
    have hv : u = v := Option.some.inj h2
    subst hv
    refine ⟨pyStrip u, ?_, pyStrip_idem u⟩
    show (if pyStrip (pyStrip u) = "old" then some "new" else some (pyStrip u)) =
      some (pyStrip u)
    rw [pyStrip_idem u, if_neg hc]

/-- Concrete instance of `second_run_no_mutation`: the first run patches
`old` to `new`; the second run on the patched file mutates nothing. -/
theorem second_run_no_mutation_witness :
    stableRew wEnvStable.urlrewrite ∧
      runMain wEnvStable wFSstable ["g"] =
        (fsUpdate wFSstable "g" (some ["distributionUrl=new\n"]),
          [patchedMsg "g" "new", doNotCommitMsg], 0) ∧
      ∃ out2, runMain wEnvStable
          (fsUpdate wFSstable "g" (some ["distributionUrl=new\n"])) ["g"] =
        (fsUpdate wFSstable "g" (some ["distributionUrl=new\n"]), out2, 0) :=
  ⟨wEnvStable_stable, rfl,
    second_run_no_mutation wEnvStable wFSstable "g"
      (fsUpdate wFSstable "g" (some ["distributionUrl=new\n"]))
      [patchedMsg "g" "new", doNotCommitMsg] wEnvStable_stable rfl⟩

/-- C10: a line whose stripped text is exactly `distributionUrl=` still
counts as the target line: it matches the scan guard, the extracted old URL
is the empty string, and the scan applies the normal compare/replace logic
to the tool's stripped output on the empty-string URL. -/
theorem empty_value_line_matches (rew : String → Option String) (l : String)
    (pre post : List String)
    (h : pyStrip l = distKey)
    (hpre : ∀ x ∈ pre, isDistLine x = false) :
    isDistLine l = true ∧ oldUrlOf l = "" ∧
      scan rew (pre ++ l :: post) =
        (match rew "" with
         | none => ScanResult.toolFailed ""
         | some out =>
           if pyStrip out = "" then ScanResult.alreadySet ""
           else ScanResult.replaced (pre ++ patchedLine (pyStrip out) :: post)
             (pyStrip out)) := by
  have h1 := isDistLine_of_strip_eq_key l h
  have h2 := oldUrlOf_of_strip_eq_key l h
  refine ⟨h1, h2, ?_⟩
  rw [scan_append_not rew pre (l :: post) hpre]
  rcases hr : rew "" with _ | out
  · rw [scan_cons_toolFailed rew l post h1 (by rw [h2]; exact hr), h2]
  · by_cases hs : pyStrip out = ""
    · rw [scan_cons_already rew l post out h1 (by rw [h2]; exact hr)
        (by rw [h2]; exact hs), h2]
      simp [hs]
    · rw [scan_cons_replaced rew l post out h1 (by rw [h2]; exact hr)
        (by rw [h2]; exact hs)]
      simp [hs]

/-- Concrete instance of `empty_value_line_matches`. -/
theorem empty_value_line_matches_witness :
    pyStrip "distributionUrl=\n" = distKey ∧
      (∀ x ∈ ["x=1\n"], isDistLine x = false) ∧
      (isDistLine "distributionUrl=\n" = true ∧
        oldUrlOf "distributionUrl=\n" = "" ∧
        scan wEnvId.urlrewrite (["x=1\n"] ++ "distributionUrl=\n" :: ["y=2\n"]) =
          (match wEnvId.urlrewrite "" with
           | none => ScanResult.toolFailed ""
           | some out =>
             if pyStrip out = "" then ScanResult.alreadySet ""
             else ScanResult.replaced
               (["x=1\n"] ++ patchedLine (pyStrip out) :: ["y=2\n"])
               (pyStrip out))) :=
  ⟨by decide, by decide,
    empty_value_line_matches wEnvId.urlrewrite "distributionUrl=\n"
      ["x=1\n"] ["y=2\n"] (by decide) (by decide)⟩

end GradlePatch
